import Mathlib

/-!
Verification of the apptools repository specification.

Part 1 models the selection broadcast registry (`SelectionService`).
The implementation of the service is not shipped under `src/` (only its
test suite is), so the service is modelled from the specification text.
Part 2 embeds the HDF5 path utilities of `apptools/io/h5/file.py`,
translated directly from the Python source.
-/

namespace AppTools

/-! ## Part 1: the selection service, modelled from the spec -/

/-- Modelled from the spec: a `Selection` value object, "an immutable
snapshot describing what is selected, tagged with the id of the producing
provider"; attributes `sourceId` and an opaque `content` payload. -/
structure Selection (α : Type) where
  sourceId : String
  content : α
deriving DecidableEq, Repr

/-- Modelled from the spec: a selection provider, "something identifiable by
a stable id that can produce a current Selection on demand and can raise a
change notification".  The `token` field stands for the identity of the
provider instance (two instances may share an `id` over time but are
distinct objects); `current` is the content its `getSelection` reports. -/
structure Provider (α : Type) where
  token : Nat
  id : String
  current : α
deriving DecidableEq, Repr

/-- Modelled from the spec: `provider.getSelection() -> Selection`, the
provider's current selection stamped with its own id. -/
def Provider.getSelection {α : Type} (p : Provider α) : Selection α :=
  ⟨p.id, p.current⟩

/-- Modelled from the spec: the error taxonomy of §7. -/
inductive SelectionError where
  | idConflict
  | providerNotRegistered
  | listenerNotConnected
deriving DecidableEq, Repr

/-- Modelled from the spec: the service state, composing the
`ProviderRegistry` (active providers, keyed by id) and the
`ListenerRegistry` (ordered multimap from provider id to the sequence of
connected listener callbacks, identified here by `Nat` tokens). -/
structure Service (α : Type) where
  providers : List (Provider α)
  listeners : List (String × List Nat)
deriving DecidableEq, Repr

/-- A record of one synchronous listener invocation `callback(id, selection)`:
which callback was invoked, the id argument, and the selection argument. -/
structure Notified (α : Type) where
  cb : Nat
  idArg : String
  sel : Selection α
deriving DecidableEq, Repr

/-- The outcome of one public operation: the state after the call, the
success/error result, and the listener invocations the call performed,
in order. -/
structure OpResult (α : Type) where
  state : Service α
  outcome : Except SelectionError Unit
  delivered : List (Notified α)

/-- Modelled from the spec: `hasSelectionProvider(id)`, a "pure membership
query against active registrations". -/
def Service.hasSelectionProvider {α : Type} (s : Service α) (id : String) : Bool :=
  s.providers.any (fun p => p.id == id)

/-- The active provider registered under `id`, if any. -/
def Service.findProvider {α : Type} (s : Service α) (id : String) : Option (Provider α) :=
  s.providers.find? (fun p => p.id == id)

/-- The listener sequence recorded under `id`, if a record exists. -/
def Service.listenerSeq {α : Type} (s : Service α) (id : String) : Option (List Nat) :=
  (s.listeners.find? (fun e => e.1 == id)).map Prod.snd

/-- The listeners connected under `id` (empty when no record exists). -/
def Service.listenersOf {α : Type} (s : Service α) (id : String) : List Nat :=
  (s.listenerSeq id).getD []

/-- Append `cb` to the ordered listener sequence for `id`, creating the
sequence if absent (spec §4.1, connect = plain append). -/
def appendListener (id : String) (cb : Nat) :
    List (String × List Nat) → List (String × List Nat)
  | [] => [(id, [cb])]
  | e :: rest =>
    if e.1 == id then (e.1, e.2 ++ [cb]) :: rest
    else e :: appendListener id cb rest

/-- Remove the first occurrence of `cb` from the sequence recorded under
`id`, leaving all other records untouched (spec §4.2, disconnect =
remove-first-match). -/
def removeListener (id : String) (cb : Nat) :
    List (String × List Nat) → List (String × List Nat) :=
  List.map (fun e => if e.1 == id then (e.1, e.2.erase cb) else e)

/-- Modelled from the spec: `addSelectionProvider(provider)`.  Fails with
`IDConflictError` if the id is already active, with no mutation; otherwise
registers the provider (subscribing to its change notification) and replays
`provider.getSelection()` to every listener already connected under its id. -/
def addSelectionProvider {α : Type} (p : Provider α) (s : Service α) : OpResult α :=
  if s.hasSelectionProvider p.id then
    ⟨s, .error .idConflict, []⟩
  else
    ⟨⟨s.providers ++ [p], s.listeners⟩, .ok (),
      (s.listenersOf p.id).map (fun cb => ⟨cb, p.id, p.getSelection⟩)⟩

/-- Modelled from the spec: `removeSelectionProvider(provider)`.  Fails with
`ProviderNotRegisteredError` if the id is not currently active; otherwise
releases the subscription and removes the active-registration entry,
leaving listener records untouched. -/
def removeSelectionProvider {α : Type} (p : Provider α) (s : Service α) : OpResult α :=
  if s.hasSelectionProvider p.id then
    ⟨⟨s.providers.filter (fun q => q.id != p.id), s.listeners⟩, .ok (), []⟩
  else
    ⟨s, .error .providerNotRegistered, []⟩

/-- Modelled from the spec: `getSelection(id)`.  Returns
`provider.getSelection()` for the active provider, unmodified; fails with
`ProviderNotRegisteredError` if `id` is not active. -/
def getSelectionOf {α : Type} (s : Service α) (id : String) :
    Except SelectionError (Selection α) :=
  match s.findProvider id with
  | some p => .ok p.getSelection
  | none => .error .providerNotRegistered

/-- Modelled from the spec: `connectSelectionListener(id, callback)`.
Appends `callback` to the sequence for `id`; if a provider with `id` is
active, immediately and synchronously invokes
`callback(id, provider.getSelection())` before returning.  Never fails. -/
def connectSelectionListener {α : Type} (id : String) (cb : Nat) (s : Service α) :
    OpResult α :=
  ⟨⟨s.providers, appendListener id cb s.listeners⟩, .ok (),
    match s.findProvider id with
    | some p => [⟨cb, id, p.getSelection⟩]
    | none => []⟩

/-- Modelled from the spec: `disconnectSelectionListener(id, callback)`.
Fails with `ListenerNotConnectedError` if `id` has no listener sequence or
the sequence does not contain `callback`; otherwise removes exactly one
matching entry. -/
def disconnectSelectionListener {α : Type} (id : String) (cb : Nat) (s : Service α) :
    OpResult α :=
  match s.listenerSeq id with
  | none => ⟨s, .error .listenerNotConnected, []⟩
  | some seq =>
    if cb ∈ seq then
      ⟨⟨s.providers, removeListener id cb s.listeners⟩, .ok (), []⟩
    else
      ⟨s, .error .listenerNotConnected, []⟩

/-- Modelled from the spec: the dispatch path of §4.3.  The provider
instance `token` raises a change notification carrying new content `c`.
If the instance still holds an active registration (its subscription
exists), the service wraps the new content so its `sourceId` is the
provider's id and invokes every listener connected under that id, in
connection order.  A removed provider's notification does not reach the
dispatch path. -/
def fireChange {α : Type} (token : Nat) (c : α) (s : Service α) : OpResult α :=
  match s.providers.find? (fun p => p.token == token) with
  | some p =>
    ⟨⟨s.providers.map (fun q => if q.token == token then ⟨q.token, q.id, c⟩ else q),
        s.listeners⟩, .ok (),
      (s.listenersOf p.id).map (fun cb => ⟨cb, p.id, ⟨p.id, c⟩⟩)⟩
  | none => ⟨s, .ok (), []⟩

/-! ### Helper lemmas about the service model -/

theorem hasSelectionProvider_iff {α : Type} (s : Service α) (id : String) :
    s.hasSelectionProvider id = true ↔ ∃ p ∈ s.providers, p.id = id := by
  simp [Service.hasSelectionProvider, List.any_eq_true]

theorem findProvider_eq_none_iff {α : Type} (s : Service α) (id : String) :
    s.findProvider id = none ↔ s.hasSelectionProvider id = false := by
  simp [Service.findProvider, Service.hasSelectionProvider, List.find?_eq_none,
    List.any_eq_true]

theorem findProvider_mem {α : Type} (s : Service α) (id : String) (p : Provider α)
    (h : s.findProvider id = some p) : p ∈ s.providers ∧ p.id = id := by
  have hm := List.find?_some h
  have hmem := List.mem_of_find?_eq_some h
  simp only [beq_iff_eq] at hm
  exact ⟨hmem, hm⟩

theorem hasProvider_filter_ne {α : Type} (l : List (Provider α)) (pid : String) :
    (List.filter (fun q => q.id != pid) l).any (fun q => q.id == pid) = false := by
  simp only [Bool.eq_false_iff, ne_eq, List.any_eq_true, not_exists, not_and]
  intro q hq
  have := (List.mem_filter.mp hq).2
  simp only [bne_iff_ne, ne_eq] at this
  simp [this]

theorem appendListener_find?_self (id : String) (cb : Nat)
    (L : List (String × List Nat)) :
    (appendListener id cb L).find? (fun e => e.1 == id) =
      some (id, (((L.find? (fun e => e.1 == id)).map Prod.snd).getD []) ++ [cb]) := by
  induction L with
  | nil => simp [appendListener]
  | cons e rest ih =>
    by_cases h : e.1 = id
    · simp [appendListener, h]
    · have hb : (e.1 == id) = false := by simp [h]
      simp [appendListener, hb, ih]

theorem appendListener_find?_other (id id' : String) (cb : Nat)
    (L : List (String × List Nat)) (hne : id' ≠ id) :
    (appendListener id cb L).find? (fun e => e.1 == id') =
      L.find? (fun e => e.1 == id') := by
  have hkey : (id == id') = false := beq_eq_false_iff_ne.mpr (fun h => hne h.symm)
  induction L with
  | nil => simp [appendListener, hkey]
  | cons e rest ih =>
    by_cases h : e.1 = id
    · have hb : (e.1 == id) = true := by simp [h]
      have hb' : (e.1 == id') = false := by rw [h]; exact hkey
      simp [appendListener, hb, hb']
    · have hb : (e.1 == id) = false := by simp [h]
      by_cases h2 : e.1 = id'
      · have hb' : (e.1 == id') = true := by simp [h2]
        simp [appendListener, hb, hb']
      · have hb' : (e.1 == id') = false := by simp [h2]
        simp [appendListener, hb, hb', ih]

theorem removeListener_find? (id id' : String) (cb : Nat)
    (L : List (String × List Nat)) :
    (removeListener id cb L).find? (fun e => e.1 == id') =
      (L.find? (fun e => e.1 == id')).map
        (fun e => if e.1 == id then (e.1, e.2.erase cb) else e) := by
  have hfun : ((fun e : String × List Nat => e.1 == id') ∘
        (fun e : String × List Nat => if e.1 == id then (e.1, e.2.erase cb) else e)) =
      (fun e : String × List Nat => e.1 == id') := by
    funext e
    by_cases h : e.1 = id <;> simp [h]
  unfold removeListener
  rw [List.find?_map, hfun]

/-! ### Claims C1-C8, settled against the spec model -/

/-- C1: if a provider with id `X` is active, `connectSelectionListener(X,
callback)` immediately and synchronously invokes
`callback(X, provider.getSelection())` exactly once before returning —
the call's delivery trace is exactly that one invocation, so it precedes
any subsequent change event. -/
theorem connect_replays_current_selection {α : Type} (s : Service α) (id : String)
    (cb : Nat) (p : Provider α) (h : s.findProvider id = some p) :
    (connectSelectionListener id cb s).delivered = [⟨cb, id, p.getSelection⟩] := by
  simp [connectSelectionListener, h]

/-- Witness for C1 at a concrete service state. -/
theorem connect_replays_current_selection_witness :
    (connectSelectionListener ("Bogus") 7
        (⟨[⟨1, "Bogus", 10⟩], []⟩ : Service Nat)).delivered =
      [⟨7, "Bogus", ⟨"Bogus", 10⟩⟩] :=
  connect_replays_current_selection ⟨[⟨1, "Bogus", 10⟩], []⟩ "Bogus" 7
    ⟨1, "Bogus", 10⟩ (by decide)

/-- C5: adding a provider whose id is already active fails with
`IDConflictError` and leaves the whole service state unchanged (the
operation result carries the original state and delivers nothing). -/
theorem add_conflict_no_mutation {α : Type} (s : Service α) (q : Provider α)
    (h : s.hasSelectionProvider q.id = true) :
    addSelectionProvider q s = ⟨s, .error .idConflict, []⟩ := by
  simp [addSelectionProvider, h]

/-- Witness for C5: two providers sharing id `Foo`. -/
theorem add_conflict_no_mutation_witness :
    addSelectionProvider (⟨2, "Foo", 5⟩ : Provider Nat) ⟨[⟨1, "Foo", 3⟩], []⟩ =
      ⟨⟨[⟨1, "Foo", 3⟩], []⟩, .error .idConflict, []⟩ :=
  add_conflict_no_mutation ⟨[⟨1, "Foo", 3⟩], []⟩ ⟨2, "Foo", 5⟩ (by decide)

/-- C7: `removeSelectionProvider` and `getSelection` fail with
`ProviderNotRegisteredError` exactly when the id has no active
registration (so a second remove in a row fails), and for an active id
`getSelection` returns the active provider's `getSelection()` result
unmodified. -/
theorem lookup_errors_iff_inactive {α : Type} (s : Service α) (id : String)
    (p0 : Provider α) :
    ((getSelectionOf s id = .error .providerNotRegistered) ↔
        s.hasSelectionProvider id = false) ∧
    (∀ p, s.findProvider id = some p → getSelectionOf s id = .ok p.getSelection) ∧
    (((removeSelectionProvider p0 s).outcome = .error .providerNotRegistered) ↔
        s.hasSelectionProvider p0.id = false) ∧
    ((removeSelectionProvider p0 s).outcome = .ok () →
      (removeSelectionProvider p0
          (removeSelectionProvider p0 s).state).outcome =
        .error .providerNotRegistered) := by
  refine ⟨?_, ?_, ?_, ?_⟩
  · constructor
    · intro h
      rcases hf : s.findProvider id with _ | p
      · exact (findProvider_eq_none_iff s id).mp hf
      · simp [getSelectionOf, hf] at h
    · intro h
      have hf : s.findProvider id = none := (findProvider_eq_none_iff s id).mpr h
      simp [getSelectionOf, hf]
  · intro p hp
    simp [getSelectionOf, hp]
  · by_cases h : s.hasSelectionProvider p0.id
    · simp [removeSelectionProvider, h]
    · simp only [Bool.not_eq_true] at h
      simp [removeSelectionProvider, h]
  · intro hok
    by_cases h : s.hasSelectionProvider p0.id
    · simp only [removeSelectionProvider, h, if_true]
      have : (Service.mk (α := α) (s.providers.filter (fun q => q.id != p0.id))
          s.listeners).hasSelectionProvider p0.id = false :=
        hasProvider_filter_ne s.providers p0.id
      simp [removeSelectionProvider, this]
    · simp only [Bool.not_eq_true] at h
      simp [removeSelectionProvider, h] at hok

/-- Witness for C7 at concrete states: `getSelection` on a missing id
errors, and on an active id returns the provider's selection. -/
theorem lookup_errors_iff_inactive_witness :
    getSelectionOf (⟨[], []⟩ : Service Nat) "missing" =
        .error .providerNotRegistered ∧
      getSelectionOf (⟨[⟨1, "Bogus", 4⟩], []⟩ : Service Nat) "Bogus" =
        .ok ⟨"Bogus", 4⟩ :=
  ⟨(lookup_errors_iff_inactive (⟨[], []⟩ : Service Nat) "missing"
      ⟨0, "x", 0⟩).1.mpr (by decide),
    (lookup_errors_iff_inactive (⟨[⟨1, "Bogus", 4⟩], []⟩ : Service Nat) "Bogus"
      ⟨0, "x", 0⟩).2.1 ⟨1, "Bogus", 4⟩ (by decide)⟩

theorem listenersOf_appendListener {α : Type} (P : List (Provider α))
    (L : List (String × List Nat)) (id : String) (cb : Nat) :
    (Service.mk P (appendListener id cb L)).listenersOf id =
      ((Service.mk P L).listenersOf id) ++ [cb] := by
  unfold Service.listenersOf Service.listenerSeq
  rw [appendListener_find?_self]
  simp

theorem listenersOf_removeListener_self {α : Type} (P : List (Provider α))
    (L : List (String × List Nat)) (id : String) (cb : Nat) :
    (Service.mk P (removeListener id cb L)).listenersOf id =
      ((Service.mk P L).listenersOf id).erase cb := by
  unfold Service.listenersOf Service.listenerSeq
  rw [removeListener_find?]
  cases hf : L.find? (fun e => e.1 == id) with
  | none => simp
  | some e =>
    have he := List.find?_some hf
    simp only [beq_iff_eq] at he
    simp [he]

theorem listenersOf_removeListener_other {α : Type} (P : List (Provider α))
    (L : List (String × List Nat)) (id id' : String) (cb : Nat) (hne : id' ≠ id) :
    (Service.mk P (removeListener id cb L)).listenersOf id' =
      (Service.mk P L).listenersOf id' := by
  unfold Service.listenersOf Service.listenerSeq
  rw [removeListener_find?]
  cases hf : L.find? (fun e => e.1 == id') with
  | none => simp
  | some e =>
    have he := List.find?_some hf
    simp only [beq_iff_eq] at he
    have hne2 : e.1 ≠ id := by rw [he]; exact hne
    have he' : (e.1 == id) = false := by simp [hne2]
    simp [he', hne2]

/-- C2: a listener connected (exactly once) under id `X` while no provider
with id `X` is active receives, on a subsequent `addSelectionProvider` of a
provider with id `X`, exactly one invocation, carrying the provider's
`getSelection()`. -/
theorem add_replays_to_preconnected {α : Type} (s : Service α) (p : Provider α)
    (cb : Nat) (hno : s.hasSelectionProvider p.id = false)
    (hone : (s.listenersOf p.id).count cb = 1) :
    (addSelectionProvider p s).outcome = .ok () ∧
      (addSelectionProvider p s).delivered.filter (fun n => n.cb == cb) =
        [⟨cb, p.id, p.getSelection⟩] := by
  constructor
  · simp [addSelectionProvider, hno]
  · have hdel : (addSelectionProvider p s).delivered =
        (s.listenersOf p.id).map (fun c => ⟨c, p.id, p.getSelection⟩) := by
      simp [addSelectionProvider, hno]
    rw [hdel, List.filter_map]
    have hcomp : ((fun n : Notified α => n.cb == cb) ∘
          (fun c : Nat => (⟨c, p.id, p.getSelection⟩ : Notified α))) =
        (fun c : Nat => c == cb) := rfl
    rw [hcomp]
    rw [show (fun c : Nat => c == cb) = (· == cb) from rfl]
    rw [List.filter_beq, hone]
    simp

/-- Witness for C2: the listener `7` is connected under `Bogus` before the
provider registers; registration replays to it exactly once. -/
theorem add_replays_to_preconnected_witness :
    (addSelectionProvider (⟨1, "Bogus", 10⟩ : Provider Nat)
          ⟨[], [("Bogus", [7])]⟩).outcome = .ok () ∧
      (addSelectionProvider (⟨1, "Bogus", 10⟩ : Provider Nat)
          ⟨[], [("Bogus", [7])]⟩).delivered.filter (fun n => n.cb == 7) =
        [⟨7, "Bogus", ⟨"Bogus", 10⟩⟩] :=
  add_replays_to_preconnected ⟨[], [("Bogus", [7])]⟩ ⟨1, "Bogus", 10⟩ 7
    (by decide) (by decide)

/-- C3: after `removeSelectionProvider(X)` returns, a change notification
raised by the removed provider instance never reaches the dispatch path:
no listener is invoked.  (The hypothesis says the instance token identifies
the provider's id uniquely in the state, the object-identity fact of the
Python runtime.) -/
theorem removed_provider_notifies_nothing {α : Type} (s : Service α)
    (p : Provider α) (c : α)
    (htok : ∀ q ∈ s.providers, q.token = p.token → q.id = p.id) :
    (fireChange p.token c (removeSelectionProvider p s).state).delivered = [] := by
  by_cases h : s.hasSelectionProvider p.id
  · have hstate : (removeSelectionProvider p s).state =
        ⟨s.providers.filter (fun q => q.id != p.id), s.listeners⟩ := by
      simp [removeSelectionProvider, h]
    rw [hstate]
    have hfind : (s.providers.filter (fun q => q.id != p.id)).find?
        (fun q => q.token == p.token) = none := by
      rw [List.find?_eq_none]
      intro q hq hbeq
      have hmem := List.mem_filter.mp hq
      have hne : q.id ≠ p.id := by simpa using hmem.2
      exact hne (htok q hmem.1 (by simpa using hbeq))
    simp [fireChange, hfind]
  · have hstate : (removeSelectionProvider p s).state = s := by
      simp only [Bool.not_eq_true] at h
      simp [removeSelectionProvider, h]
    rw [hstate]
    have hfind : s.providers.find? (fun q => q.token == p.token) = none := by
      rw [List.find?_eq_none]
      intro q hq hbeq
      have hid : q.id = p.id := htok q hq (by simpa using hbeq)
      exact h ((hasSelectionProvider_iff s p.id).mpr ⟨q, hq, hid⟩)
    simp [fireChange, hfind]

/-- Witness for C3: provider 1 is removed; its change event delivers
nothing even though listener `7` stays connected under its id. -/
theorem removed_provider_notifies_nothing_witness :
    (fireChange 1 99
        (removeSelectionProvider (⟨1, "Bogus", 10⟩ : Provider Nat)
          ⟨[⟨1, "Bogus", 10⟩], [("Bogus", [7])]⟩).state).delivered = [] :=
  removed_provider_notifies_nothing ⟨[⟨1, "Bogus", 10⟩], [("Bogus", [7])]⟩
    ⟨1, "Bogus", 10⟩ 99 (by decide)

/-- C4: removing an active provider leaves the listener records unchanged,
and re-registering a provider with the same id succeeds and replays the
current selection to exactly the listener sequence that was connected
before the removal. -/
theorem remove_preserves_listeners_and_replays {α : Type} (s : Service α)
    (p q : Provider α) (hq : q.id = p.id)
    (hact : s.hasSelectionProvider p.id = true) :
    (removeSelectionProvider p s).state.listeners = s.listeners ∧
      (removeSelectionProvider p s).outcome = .ok () ∧
      (addSelectionProvider q (removeSelectionProvider p s).state).outcome = .ok () ∧
      (addSelectionProvider q (removeSelectionProvider p s).state).delivered =
        (s.listenersOf q.id).map (fun cb => ⟨cb, q.id, q.getSelection⟩) := by
  have hstate : (removeSelectionProvider p s).state =
      ⟨s.providers.filter (fun r => r.id != p.id), s.listeners⟩ := by
    simp [removeSelectionProvider, hact]
  have hno : (Service.mk (s.providers.filter (fun r => r.id != p.id))
      s.listeners).hasSelectionProvider q.id = false := by
    show (s.providers.filter (fun r => r.id != p.id)).any
        (fun r => r.id == q.id) = false
    rw [hq]
    exact hasProvider_filter_ne s.providers p.id
  refine ⟨by rw [hstate], by simp [removeSelectionProvider, hact], ?_, ?_⟩
  · rw [hstate]
    simp [addSelectionProvider, hno]
  · rw [hstate]
    simp only [addSelectionProvider, hno, Bool.false_eq_true, if_false]
    rfl

/-- Witness for C4 at a concrete state: provider 1 removed, provider 2
re-registered under the same id, replaying to listener `7` again. -/
theorem remove_preserves_listeners_and_replays_witness :
    (removeSelectionProvider (⟨1, "Bogus", 10⟩ : Provider Nat)
          ⟨[⟨1, "Bogus", 10⟩], [("Bogus", [7])]⟩).state.listeners =
        [("Bogus", [7])] ∧
      (removeSelectionProvider (⟨1, "Bogus", 10⟩ : Provider Nat)
          ⟨[⟨1, "Bogus", 10⟩], [("Bogus", [7])]⟩).outcome = .ok () ∧
      (addSelectionProvider ⟨2, "Bogus", 11⟩
          (removeSelectionProvider (⟨1, "Bogus", 10⟩ : Provider Nat)
            ⟨[⟨1, "Bogus", 10⟩], [("Bogus", [7])]⟩).state).outcome = .ok () ∧
      (addSelectionProvider ⟨2, "Bogus", 11⟩
          (removeSelectionProvider (⟨1, "Bogus", 10⟩ : Provider Nat)
            ⟨[⟨1, "Bogus", 10⟩], [("Bogus", [7])]⟩).state).delivered =
        [⟨7, "Bogus", ⟨"Bogus", 11⟩⟩] :=
  remove_preserves_listeners_and_replays
    ⟨[⟨1, "Bogus", 10⟩], [("Bogus", [7])]⟩ ⟨1, "Bogus", 10⟩ ⟨2, "Bogus", 11⟩
    rfl (by decide)

/-- C6: every selection delivered to a listener — by replay on register,
by replay on connect, or by change-event dispatch — carries a `sourceId`
equal to the id under which the invoked callback is connected (the
callback is among the listeners recorded under the id it was invoked
with), and change-event dispatch passes the new content unmodified. -/
theorem delivered_sourceId_matches_connection {α : Type} (s : Service α)
    (p : Provider α) (id : String) (cb tok : Nat) (c : α) :
    (∀ n ∈ (addSelectionProvider p s).delivered,
        n.sel.sourceId = n.idArg ∧
          n.cb ∈ (addSelectionProvider p s).state.listenersOf n.idArg) ∧
    (∀ n ∈ (connectSelectionListener id cb s).delivered,
        n.sel.sourceId = n.idArg ∧
          n.cb ∈ (connectSelectionListener id cb s).state.listenersOf n.idArg) ∧
    (∀ n ∈ (fireChange tok c s).delivered,
        n.sel.sourceId = n.idArg ∧ n.sel.content = c ∧
          n.cb ∈ (fireChange tok c s).state.listenersOf n.idArg) := by
  refine ⟨?_, ?_, ?_⟩
  · intro n hn
    by_cases h : s.hasSelectionProvider p.id
    · simp [addSelectionProvider, h] at hn
    · simp only [Bool.not_eq_true] at h
      simp only [addSelectionProvider, h, Bool.false_eq_true, if_false,
        List.mem_map] at hn
      obtain ⟨cb', hcb', rfl⟩ := hn
      exact ⟨rfl, by simpa [addSelectionProvider, h] using hcb'⟩
  · intro n hn
    cases hf : s.findProvider id with
    | none => simp [connectSelectionListener, hf] at hn
    | some q =>
      simp only [connectSelectionListener, hf, List.mem_singleton] at hn
      subst hn
      refine ⟨(findProvider_mem s id q hf).2, ?_⟩
      show cb ∈ (Service.mk s.providers (appendListener id cb s.listeners)).listenersOf id
      rw [listenersOf_appendListener]
      exact List.mem_append_right _ (List.mem_singleton.mpr rfl)
  · intro n hn
    cases hf : s.providers.find? (fun q => q.token == tok) with
    | none => simp [fireChange, hf] at hn
    | some q =>
      simp only [fireChange, hf, List.mem_map] at hn
      obtain ⟨cb', hcb', rfl⟩ := hn
      exact ⟨rfl, rfl, by simpa [fireChange, hf] using hcb'⟩

/-- Witness for C6: a concrete change event delivered to listener `7`
carries its connection id `Bogus` as `sourceId` and content `99`. -/
theorem delivered_sourceId_matches_connection_witness :
    (⟨"Bogus", 99⟩ : Selection Nat).sourceId = "Bogus" ∧
      (⟨"Bogus", (99 : Nat)⟩ : Selection Nat).content = 99 ∧
      (7 : Nat) ∈ (fireChange 1 99
          (⟨[⟨1, "Bogus", 10⟩], [("Bogus", [7])]⟩ : Service Nat)).state.listenersOf
        ("Bogus") :=
  (delivered_sourceId_matches_connection
      (⟨[⟨1, "Bogus", 10⟩], [("Bogus", [7])]⟩ : Service Nat)
      ⟨1, "Bogus", 10⟩ "Bogus" 7 1 99).2.2
    ⟨7, "Bogus", ⟨"Bogus", 99⟩⟩ (by decide)

/-- C8: `disconnectSelectionListener(id, callback)` fails with
`ListenerNotConnectedError` exactly when `id` has no listener sequence or
its sequence does not contain `callback`; on a connected pair it removes
exactly the first matching entry, leaves every other id's listeners
intact, and (when the pair was connected once) the callback is no longer
among the listeners of `id`, so a subsequent change event for that id
never reaches it. -/
theorem disconnect_listener_correct {α : Type} (s : Service α) (id : String)
    (cb : Nat) :
    (((disconnectSelectionListener id cb s).outcome =
          .error .listenerNotConnected) ↔
        (s.listenerSeq id = none ∨ cb ∉ s.listenersOf id)) ∧
    (∀ seq, s.listenerSeq id = some seq → cb ∈ seq →
      (disconnectSelectionListener id cb s).state.listeners =
          removeListener id cb s.listeners ∧
        (disconnectSelectionListener id cb s).state.listenersOf id =
          (s.listenersOf id).erase cb ∧
        (∀ id', id' ≠ id →
          (disconnectSelectionListener id cb s).state.listenersOf id' =
            s.listenersOf id') ∧
        ((s.listenersOf id).count cb = 1 →
          ∀ tok c, ∀ n ∈
              (fireChange tok c
                (disconnectSelectionListener id cb s).state).delivered,
            n.idArg = id → n.cb ≠ cb)) := by
  constructor
  · cases hseq : s.listenerSeq id with
    | none => simp [disconnectSelectionListener, hseq]
    | some seq =>
      have hof : s.listenersOf id = seq := by
        simp [Service.listenersOf, hseq]
      by_cases hm : cb ∈ seq
      · simp [disconnectSelectionListener, hseq, hm, hof]
      · simp [disconnectSelectionListener, hseq, hm, hof]
  · intro seq hseq hm
    have hof : s.listenersOf id = seq := by
      simp [Service.listenersOf, hseq]
    have hstate : (disconnectSelectionListener id cb s).state =
        ⟨s.providers, removeListener id cb s.listeners⟩ := by
      simp [disconnectSelectionListener, hseq, hm]
    refine ⟨by rw [hstate], ?_, ?_, ?_⟩
    · rw [hstate]
      exact listenersOf_removeListener_self s.providers s.listeners id cb
    · intro id' hne
      rw [hstate]
      exact listenersOf_removeListener_other s.providers s.listeners id id' cb hne
    · intro hone tok c n hn hid
      have herase : (disconnectSelectionListener id cb s).state.listenersOf id =
          (s.listenersOf id).erase cb := by
        rw [hstate]
        exact listenersOf_removeListener_self s.providers s.listeners id cb
      have hnomem : cb ∉ (s.listenersOf id).erase cb := by
        rw [← List.count_eq_zero, List.count_erase_self, hone]
      cases hf : (disconnectSelectionListener id cb s).state.providers.find?
          (fun q => q.token == tok) with
      | none => simp [fireChange, hf] at hn
      | some q =>
        simp only [fireChange, hf, List.mem_map] at hn
        obtain ⟨cb', hcb', rfl⟩ := hn
        simp only at hid
        rw [hid] at hcb'
        rw [herase] at hcb'
        intro heq
        simp only at heq
        rw [heq] at hcb'
        exact hnomem hcb'

/-- Witness for C8: disconnecting the connected pair (`Bogus`, 7) removes
it, leaves listener 8 connected, and a later change event no longer
reaches 7; also instantiates the error characterization. -/
theorem disconnect_listener_correct_witness :
    ((disconnectSelectionListener ("does-not-exist") 8
          (⟨[⟨1, "Bogus", 10⟩], [("Bogus", [7, 8])]⟩ : Service Nat)).outcome =
        .error .listenerNotConnected) ∧
      (disconnectSelectionListener ("Bogus") 7
          (⟨[⟨1, "Bogus", 10⟩], [("Bogus", [7, 8])]⟩ : Service Nat)).state.listenersOf
          ("Bogus") =
        [8] :=
  ⟨(disconnect_listener_correct
        (⟨[⟨1, "Bogus", 10⟩], [("Bogus", [7, 8])]⟩ : Service Nat)
        ("does-not-exist") 8).1.mpr (by decide),
    by
      have h := (disconnect_listener_correct
          (⟨[⟨1, "Bogus", 10⟩], [("Bogus", [7, 8])]⟩ : Service Nat)
          ("Bogus") 7).2 [7, 8] (by decide) (by decide)
      rw [h.2.1]
      decide⟩

/-! ## Part 2: `apptools/io/h5/file.py`, translated from the source

Python strings are embedded as `List Char`. -/

/-- A node path inside an HDF5 file, e.g. `/path/to/node`. -/
abbrev HPath := List Char

/-- Index of the last occurrence of `c` in `s`, if any
(Python `str.rfind` returns this index, or -1 when absent). -/
def rfindIdx (c : Char) : List Char → Option Nat
  | [] => none
  | x :: xs =>
    match rfindIdx c xs with
    | some i => some (i + 1)
    | none => if x == c then some 0 else none

/-- `H5File.split_path`: split a node path into base path and node name.
Source: `i = node_path.rfind('/'); if i == 0: return '/', node_path[1:]
else: return node_path[:i], node_path[i + 1:]` (with Python's slice
semantics for `i = -1` when no slash occurs). -/
def splitPath (s : HPath) : HPath × HPath :=
  match rfindIdx '/' s with
  | some 0 => (['/'], s.drop 1)
  | some i => (s.take i, s.drop (i + 1))
  | none => (s.take (s.length - 1), s)

/-- Python `s.strip(c)`: remove every leading and trailing occurrence of
the character `c`. -/
def pyStrip (c : Char) (s : List Char) : List Char :=
  ((s.dropWhile (fun x => x == c)).reverse.dropWhile (fun x => x == c)).reverse

/-- Python `'/'.join(parts)`. -/
def slashJoin : List (List Char) → List Char
  | [] => []
  | [x] => x
  | x :: y :: rest => x ++ '/' :: slashJoin (y :: rest)

/-- `H5File.join_path`: source: `path = '/'.join(part.strip('/') for part
in args); if not path.startswith('/'): path = '/' + path; return path`. -/
def joinPath (args : List (List Char)) : HPath :=
  let path := slashJoin (args.map (pyStrip '/'))
  if path.head? == some '/' then path else '/' :: path

/-- Python `node_path.split('/')`: the '/'-separated components,
empty components included. -/
def splitOnSlash : List Char → List (List Char)
  | [] => [[]]
  | c :: rest =>
    match splitOnSlash rest with
    | [] => [[]]
    | t :: ts => if c == '/' then [] :: t :: ts else (c :: t) :: ts

/-- The reserved node name `attrs`. -/
def attrsWord : List Char := ['a', 't', 't', 'r', 's']

/-- The kind of a stored node (`H5Group` versus any leaf node). -/
inductive NodeKind where
  | group
  | leaf
deriving DecidableEq, Repr

/-- Errors raised by the file wrapper: `ValueError` (both the
existing-node error of `_check_node` and the invalid-name error of
`_assert_valid_path`), and Python's `RecursionError`, which
`_create_required_groups` hits when the parent chain never reaches an
existing node (modelled by fuel exhaustion). -/
inductive H5Error where
  | valueError
  | recursionError
deriving DecidableEq, Repr

/-- The state of an `H5File`: the set of stored nodes (path and kind, in
creation order) and the `auto_groups` / `delete_existing` options. -/
structure H5State where
  nodes : List (HPath × NodeKind)
  autoGroups : Bool
  deleteExisting : Bool
deriving DecidableEq, Repr

/-- `node_path in self`. -/
def H5State.hasNode (st : H5State) (p : HPath) : Bool :=
  st.nodes.any (fun e => e.1 == p)

/-- The kind of the node stored at `p`, if present. -/
def H5State.kindOf (st : H5State) (p : HPath) : Option NodeKind :=
  (st.nodes.find? (fun e => e.1 == p)).map Prod.snd

/-- Store a new node at `p`. -/
def H5State.addNode (st : H5State) (p : HPath) (k : NodeKind) : H5State :=
  ⟨st.nodes ++ [(p, k)], st.autoGroups, st.deleteExisting⟩

/-- `H5File.remove_node`: delete the node stored at `p`. -/
def H5State.removeNode (st : H5State) (p : HPath) : H5State :=
  ⟨st.nodes.filter (fun e => e.1 != p), st.autoGroups, st.deleteExisting⟩

/-- `H5File.remove_group` with `recursive=True`: delete the group at `p`
and every node below it. -/
def H5State.removeGroup (st : H5State) (p : HPath) : H5State :=
  ⟨st.nodes.filter
      (fun e => !(e.1 == p || (p ++ ['/']).isPrefixOf e.1)),
    st.autoGroups, st.deleteExisting⟩

/-- Sequence two stateful steps, propagating a raised error
(the state reached so far is kept, as with a Python exception). -/
def andThen (r : H5State × Except H5Error Unit)
    (f : H5State → H5State × Except H5Error Unit) :
    H5State × Except H5Error Unit :=
  match r with
  | (st, .ok _) => f st
  | (st, .error e) => (st, .error e)

/-- `H5File._assert_valid_path`: source: `if 'attrs' in
node_path.split('/'): raise ValueError("'attrs' is an invalid node
name.")`. -/
def assertValidPath (p : HPath) (st : H5State) : H5State × Except H5Error Unit :=
  if attrsWord ∈ splitOnSlash p then (st, .error .valueError) else (st, .ok ())

mutual

/-- `H5File._check_node`: if `auto_groups`, create the missing parent
groups of `node_path`; then, if `node_path` exists, delete it when
`delete_existing` is set (as a group or as a plain node) and otherwise
raise `ValueError`.  The `fuel` argument bounds the recursion depth of
the mutual calls, standing in for Python's recursion limit. -/
def checkNodeFuel : Nat → HPath → H5State → H5State × Except H5Error Unit
  | 0, _, st => (st, .error .recursionError)
  | fuel + 1, p, st =>
    andThen
      (if st.autoGroups then createRequiredGroupsFuel fuel (splitPath p).1 st
       else (st, .ok ()))
      (fun st =>
        if st.hasNode p then
          if st.deleteExisting then
            if st.kindOf p == some .group then (st.removeGroup p, .ok ())
            else (st.removeNode p, .ok ())
          else (st, .error .valueError)
        else (st, .ok ()))

/-- `H5File._create_required_groups`: source: `if path not in self:
parent, missing = self.split_path(path); self._create_required_groups(parent);
self.create_group(path)`. -/
def createRequiredGroupsFuel : Nat → HPath → H5State → H5State × Except H5Error Unit
  | 0, _, st => (st, .error .recursionError)
  | fuel + 1, p, st =>
    if st.hasNode p then (st, .ok ())
    else
      andThen (createRequiredGroupsFuel fuel (splitPath p).1 st)
        (fun st => createGroupFuel fuel p st)

/-- `H5File.create_group`: source: `self._check_node(group_path);
self._assert_valid_path(group_path); path, name =
self.split_path(group_path); self._h5.createGroup(path, name)`. -/
def createGroupFuel : Nat → HPath → H5State → H5State × Except H5Error Unit
  | 0, _, st => (st, .error .recursionError)
  | fuel + 1, p, st =>
    andThen (checkNodeFuel fuel p st) (fun st =>
      andThen (assertValidPath p st) (fun st =>
        (st.addNode p .group, .ok ())))

end

/-- Fuel that Python's recursion limit would never let an ordinary call
exhaust: three mutual calls per ancestor level. -/
def defaultFuel (p : HPath) : Nat := 3 * (p.length + 2)

/-- `H5File.create_group` at the public entry point. -/
def createGroup (p : HPath) (st : H5State) : H5State × Except H5Error Unit :=
  createGroupFuel (defaultFuel p) p st

/-- `H5File.create_array`: source order: `self._check_node(node_path);
self._assert_valid_path(node_path); ...; if isinstance(array_or_shape,
tuple): if dtype is None: raise ValueError(...)` and finally one of the
PyTables `createEArray` / `createCArray` / `createArray` calls, each of
which stores a new leaf node at `node_path` (the array payload itself is
not modelled).  `shapeOnly` says whether `array_or_shape` was a shape
tuple, `dtypeGiven` whether `dtype` was passed. -/
def createArray (p : HPath) (shapeOnly dtypeGiven : Bool) (st : H5State) :
    H5State × Except H5Error Unit :=
  andThen (checkNodeFuel (defaultFuel p) p st) (fun st =>
    andThen (assertValidPath p st) (fun st =>
      andThen
        (if shapeOnly && !dtypeGiven then (st, .error .valueError) else (st, .ok ()))
        (fun st => (st.addNode p .leaf, .ok ()))))

/-- `H5File.create_dict`: source: `self._check_node(node_path);
self._assert_valid_path(node_path); H5DictNode.add_to_h5file(self,
node_path, data)`.  `H5DictNode.add_to_h5file` lives in `dict_node.py`,
which is not part of the sources; modelled from its call site and
docstring ("Create dict node at the specified path") as storing a new
leaf node at `node_path`. -/
def createDict (p : HPath) (st : H5State) : H5State × Except H5Error Unit :=
  andThen (checkNodeFuel (defaultFuel p) p st) (fun st =>
    andThen (assertValidPath p st) (fun st =>
      (st.addNode p .leaf, .ok ())))

/-- `H5File.create_table`: source: `self._check_node(node_path);
self._assert_valid_path(node_path); H5TableNode.add_to_h5file(self,
node_path, description)`.  `H5TableNode.add_to_h5file` lives in
`table_node.py`, which is not part of the sources; modelled from its
call site and docstring ("Create table node at the specified path") as
storing a new leaf node at `node_path`. -/
def createTable (p : HPath) (st : H5State) : H5State × Except H5Error Unit :=
  andThen (checkNodeFuel (defaultFuel p) p st) (fun st =>
    andThen (assertValidPath p st) (fun st =>
      (st.addNode p .leaf, .ok ())))

/-! ### Helper lemmas about the path utilities -/

theorem rfindIdx_eq_none (c : Char) (s : List Char) (h : c ∉ s) :
    rfindIdx c s = none := by
  induction s with
  | nil => rfl
  | cons x xs ih =>
    have hx : x ≠ c := fun he => h (he ▸ List.mem_cons_self x xs)
    have hxs : c ∉ xs := fun hm => h (List.mem_cons_of_mem _ hm)
    simp [rfindIdx, ih hxs, hx]

theorem rfindIdx_append (c : Char) (a b : List Char) (hb : c ∉ b) :
    rfindIdx c (a ++ c :: b) = some a.length := by
  induction a with
  | nil => simp [rfindIdx, rfindIdx_eq_none c b hb]
  | cons x xs ih => simp [rfindIdx, ih]

theorem rfindIdx_lt_length (c : Char) (s : List Char) (i : Nat)
    (h : rfindIdx c s = some i) : i < s.length := by
  induction s generalizing i with
  | nil => simp [rfindIdx] at h
  | cons x xs ih =>
    simp only [rfindIdx] at h
    cases hr : rfindIdx c xs with
    | some j =>
      rw [hr] at h
      simp only [Option.some.injEq] at h
      subst h
      exact Nat.succ_lt_succ (ih j hr)
    | none =>
      rw [hr] at h
      by_cases hx : x == c
      · simp only [hx, if_true, Option.some.injEq] at h
        subst h
        simp
      · simp only [hx] at h
        simp at h

theorem slashJoin_ne_nil (p : List Char) (ps : List (List Char)) (hp : p ≠ []) :
    slashJoin (p :: ps) ≠ [] := by
  cases ps with
  | nil => simpa [slashJoin] using hp
  | cons y rest => simp [slashJoin]

theorem slashJoin_append_single (ps : List (List Char)) (q : List Char)
    (h : ps ≠ []) :
    slashJoin (ps ++ [q]) = slashJoin ps ++ '/' :: q := by
  induction ps with
  | nil => exact absurd rfl h
  | cons x rest ih =>
    cases rest with
    | nil => simp [slashJoin]
    | cons y rest' =>
      have hih := ih (by simp)
      calc slashJoin ((x :: y :: rest') ++ [q])
          = x ++ '/' :: slashJoin ((y :: rest') ++ [q]) := by
            simp [slashJoin]
        _ = x ++ '/' :: (slashJoin (y :: rest') ++ '/' :: q) := by rw [hih]
        _ = (x ++ '/' :: slashJoin (y :: rest')) ++ '/' :: q := by simp
        _ = slashJoin (x :: y :: rest') ++ '/' :: q := by simp [slashJoin]

theorem slashJoin_head? (p : List Char) (ps : List (List Char)) (hp : p ≠ []) :
    (slashJoin (p :: ps)).head? = p.head? := by
  cases ps with
  | nil => rfl
  | cons y rest =>
    show (p ++ '/' :: slashJoin (y :: rest)).head? = p.head?
    exact List.head?_append_of_ne_nil _ hp

theorem getLast?_append_ne_nil {γ : Type} (l m : List γ) (h : m ≠ []) :
    (l ++ m).getLast? = m.getLast? := by
  rw [List.getLast?_append]
  cases hm : m.getLast? with
  | none => exact absurd (List.getLast?_eq_none_iff.mp hm) h
  | some a => rfl

theorem slashJoin_getLast?_mem (parts : List (List Char)) (h : parts ≠ [])
    (hne : ∀ q ∈ parts, q ≠ []) :
    ∃ q ∈ parts, (slashJoin parts).getLast? = q.getLast? := by
  induction parts with
  | nil => exact absurd rfl h
  | cons x rest ih =>
    cases rest with
    | nil => exact ⟨x, by simp, rfl⟩
    | cons y rest' =>
      obtain ⟨q, hq, heq⟩ :=
        ih (by simp) (fun q hq => hne q (List.mem_cons_of_mem _ hq))
      refine ⟨q, List.mem_cons_of_mem _ hq, ?_⟩
      have hyne : slashJoin (y :: rest') ≠ [] :=
        slashJoin_ne_nil y rest' (hne y (by simp))
      show (x ++ '/' :: slashJoin (y :: rest')).getLast? = q.getLast?
      have hsplit : x ++ '/' :: slashJoin (y :: rest') =
          (x ++ ['/']) ++ slashJoin (y :: rest') := by simp
      rw [hsplit, getLast?_append_ne_nil _ _ hyne, heq]

theorem pyStrip_eq_self (c : Char) (s : List Char)
    (h1 : s.head? ≠ some c) (h2 : s.getLast? ≠ some c) :
    pyStrip c s = s := by
  have hfront : s.dropWhile (fun x => x == c) = s := by
    cases s with
    | nil => rfl
    | cons a t =>
      have ha : a ≠ c := fun he => h1 (by simp [he])
      simp [List.dropWhile_cons, ha]
  have hback : s.reverse.dropWhile (fun x => x == c) = s.reverse := by
    cases hs : s.reverse with
    | nil => rfl
    | cons a t =>
      have ha' : s.getLast? = some a := by
        rw [← List.head?_reverse, hs]
        rfl
      have ha : a ≠ c := fun he => h2 (he ▸ ha')
      simp [List.dropWhile_cons, ha]
  unfold pyStrip
  rw [hfront, hback, List.reverse_reverse]

theorem pyStrip_cons_same (c : Char) (s : List Char) :
    pyStrip c (c :: s) = pyStrip c s := by
  unfold pyStrip
  simp [List.dropWhile_cons]

theorem splitPath_abs_single (name : List Char) (h : '/' ∉ name) :
    splitPath ('/' :: name) = (['/'], name) := by
  have hr : rfindIdx '/' ('/' :: name) = some 0 := by
    simp [rfindIdx, rfindIdx_eq_none '/' name h]
  simp [splitPath, hr]

theorem splitPath_deep (pre name : List Char) (hpre : pre ≠ [])
    (h : '/' ∉ name) :
    splitPath (pre ++ '/' :: name) = (pre, name) := by
  have hr : rfindIdx '/' (pre ++ '/' :: name) = some pre.length :=
    rfindIdx_append '/' pre name h
  obtain ⟨k, hk⟩ : ∃ k, pre.length = k + 1 :=
    ⟨pre.length - 1, by
      have : pre.length ≠ 0 := by simpa using hpre
      omega⟩
  have h1 : (pre ++ '/' :: name).take (k + 1) = pre := by
    rw [← hk]
    exact List.take_left pre _
  have h2 : (pre ++ '/' :: name).drop (k + 1 + 1) = name := by
    have hsplit : pre ++ '/' :: name = (pre ++ ['/']) ++ name := by simp
    have hlen : (pre ++ ['/']).length = k + 1 + 1 := by simp [hk]
    rw [hsplit, ← hlen]
    exact List.drop_left _ _
  rw [splitPath, hr, hk]
  simp [h1, h2]

/-! ### Claim C9 -/

/-- C9: for every absolute node path `/part1/.../partN/name` with
non-empty, slash-free components and no trailing slash, `join_path`
applied to the two components returned by `split_path` yields the
original path (`split_path` splitting at the last `/`); in particular
`split_path('/name')` returns `('/', 'name')`. -/
theorem split_path_join_path_roundtrip (parts : List (List Char))
    (name : List Char) (hparts : ∀ q ∈ parts, q ≠ [] ∧ '/' ∉ q)
    (hname : name ≠ []) (hslash : '/' ∉ name) :
    joinPath [(splitPath ('/' :: slashJoin (parts ++ [name]))).1,
        (splitPath ('/' :: slashJoin (parts ++ [name]))).2] =
      '/' :: slashJoin (parts ++ [name]) ∧
    splitPath ('/' :: name) = (['/'], name) := by
  have hnhead : name.head? ≠ some '/' := fun he =>
    hslash (List.mem_of_mem_head? (by rw [he]; exact Option.mem_some_self _))
  have hnlast : name.getLast? ≠ some '/' := fun he =>
    hslash (List.mem_of_mem_getLast? (by rw [he]; exact Option.mem_some_self _))
  refine ⟨?_, splitPath_abs_single name hslash⟩
  cases parts with
  | nil =>
    have hpath : ('/' : Char) :: slashJoin ([] ++ [name]) = '/' :: name := rfl
    rw [hpath, splitPath_abs_single name hslash]
    have e1 : pyStrip '/' ['/'] = [] := rfl
    have e2 : pyStrip '/' name = name := pyStrip_eq_self '/' name hnhead hnlast
    simp [joinPath, e1, e2, slashJoin]
  | cons p ps =>
    have hp := hparts p (List.mem_cons_self p ps)
    have hJne : slashJoin (p :: ps) ≠ [] := slashJoin_ne_nil p ps hp.1
    obtain ⟨a, t, hpat⟩ : ∃ a t, p = a :: t := by
      cases p with
      | nil => exact absurd rfl hp.1
      | cons a t => exact ⟨a, t, rfl⟩
    have hahead : (slashJoin (p :: ps)).head? = some a := by
      rw [slashJoin_head? p ps hp.1, hpat]
      rfl
    have hane : a ≠ '/' := by
      intro he
      exact hp.2 (he ▸ (hpat ▸ List.mem_cons_self a t))
    obtain ⟨q, hqmem, hqlast⟩ :=
      slashJoin_getLast?_mem (p :: ps) (by simp) (fun r hr => (hparts r hr).1)
    obtain ⟨b, hb⟩ : ∃ b, q.getLast? = some b := by
      cases hq : q.getLast? with
      | none => exact absurd (List.getLast?_eq_none_iff.mp hq) (hparts q hqmem).1
      | some b => exact ⟨b, rfl⟩
    have hbne : b ≠ '/' := by
      intro he
      exact (hparts q hqmem).2
        (he ▸ List.mem_of_mem_getLast? (by rw [hb]; exact Option.mem_some_self _))
    have hJlast : (slashJoin (p :: ps)).getLast? = some b := by rw [hqlast, hb]
    have hpath : ('/' : Char) :: slashJoin ((p :: ps) ++ [name]) =
        ('/' :: slashJoin (p :: ps)) ++ '/' :: name := by
      rw [slashJoin_append_single (p :: ps) name (by simp)]
      rfl
    rw [hpath, splitPath_deep ('/' :: slashJoin (p :: ps)) name (by simp) hslash]
    have e1 : pyStrip '/' ('/' :: slashJoin (p :: ps)) = slashJoin (p :: ps) := by
      rw [pyStrip_cons_same]
      exact pyStrip_eq_self '/' _ (by rw [hahead]; simp [hane])
        (by rw [hJlast]; simp [hbne])
    have e2 : pyStrip '/' name = name := pyStrip_eq_self '/' name hnhead hnlast
    have ehead : (slashJoin (p :: ps) ++ '/' :: name).head? = some a := by
      rw [List.head?_append_of_ne_nil _ hJne, hahead]
    simp only [joinPath, List.map_cons, List.map_nil, e1, e2, slashJoin, ehead]
    simp [hane]

/-- Witness for C9 on the concrete path `/ab/c/de`. -/
theorem split_path_join_path_roundtrip_witness :
    joinPath [(splitPath ('/' :: slashJoin ([['a', 'b'], ['c']] ++ [['d', 'e']]))).1,
        (splitPath ('/' :: slashJoin ([['a', 'b'], ['c']] ++ [['d', 'e']]))).2] =
      '/' :: slashJoin ([['a', 'b'], ['c']] ++ [['d', 'e']]) ∧
    splitPath ('/' :: ['d', 'e']) = (['/'], ['d', 'e']) :=
  split_path_join_path_roundtrip [['a', 'b'], ['c']] ['d', 'e']
    (by decide) (by decide) (by decide)

/-! ### Helper lemmas about the node-creation pipeline -/

theorem splitOnSlash_ne_nil (s : List Char) : splitOnSlash s ≠ [] := by
  cases s with
  | nil => simp [splitOnSlash]
  | cons c rest =>
    simp only [splitOnSlash]
    cases h : splitOnSlash rest with
    | nil => simp
    | cons t ts => by_cases hc : c == '/' <;> simp [hc]

theorem splitOnSlash_length (s : List Char) :
    ∀ t ∈ splitOnSlash s, t.length ≤ s.length := by
  induction s with
  | nil =>
    intro t ht
    simp only [splitOnSlash, List.mem_singleton] at ht
    simp [ht]
  | cons c rest ih =>
    intro t ht
    cases h : splitOnSlash rest with
    | nil => exact absurd h (splitOnSlash_ne_nil rest)
    | cons u us =>
      have hval : splitOnSlash (c :: rest) =
          if c == '/' then [] :: u :: us else (c :: u) :: us := by
        simp only [splitOnSlash, h]
      rw [hval] at ht
      have hu : u ∈ splitOnSlash rest := by rw [h]; exact List.mem_cons_self u us
      by_cases hc : c == '/'
      · rw [if_pos hc] at ht
        rcases List.mem_cons.mp ht with rfl | ht2
        · simp
        · have ht3 : t ∈ splitOnSlash rest := by rw [h]; exact ht2
          exact le_trans (ih t ht3) (by simp)
      · rw [if_neg hc] at ht
        rcases List.mem_cons.mp ht with rfl | ht2
        · have := ih u hu
          simpa using this
        · have ht3 : t ∈ splitOnSlash rest := by
            rw [h]
            exact List.mem_cons_of_mem u ht2
          exact le_trans (ih t ht3) (by simp)

theorem splitPath_fst_length_le (p : HPath) :
    (splitPath p).1.length ≤ p.length := by
  cases hr : rfindIdx '/' p with
  | none =>
    simp only [splitPath, hr, List.length_take]
    exact le_trans (Nat.min_le_right _ _) (le_refl _)
  | some i =>
    have hi := rfindIdx_lt_length '/' p i hr
    cases i with
    | zero =>
      simp only [splitPath, hr, List.length_singleton]
      omega
    | succ j =>
      simp only [splitPath, hr, List.length_take]
      exact Nat.min_le_right _ _

theorem splitPath_fst_length_lt (p : HPath) (h5 : 5 ≤ p.length) :
    (splitPath p).1.length < p.length := by
  cases hr : rfindIdx '/' p with
  | none =>
    simp only [splitPath, hr, List.length_take]
    have hmin : min (p.length - 1) p.length = p.length - 1 :=
      Nat.min_eq_left (Nat.sub_le _ _)
    omega
  | some i =>
    have hi := rfindIdx_lt_length '/' p i hr
    cases i with
    | zero =>
      simp only [splitPath, hr, List.length_singleton]
      omega
    | succ j =>
      simp only [splitPath, hr, List.length_take]
      have hmin : min (j + 1) p.length = j + 1 :=
        Nat.min_eq_left (Nat.le_of_lt hi)
      omega

theorem andThen_fst_cases (r : H5State × Except H5Error Unit)
    (f : H5State → H5State × Except H5Error Unit) :
    (andThen r f).1 = r.1 ∨ (andThen r f).1 = (f r.1).1 := by
  rcases r with ⟨st, out⟩
  cases out with
  | ok u => cases u; right; rfl
  | error e => left; rfl

theorem checkNode_stage2_subset (p : HPath) (st1 : H5State) :
    ∀ e ∈ ((if st1.hasNode p then
        if st1.deleteExisting then
          if st1.kindOf p == some .group then (st1.removeGroup p, (.ok () : Except H5Error Unit))
          else (st1.removeNode p, .ok ())
        else (st1, .error .valueError)
      else (st1, .ok ())) : H5State × Except H5Error Unit).1.nodes, e ∈ st1.nodes := by
  intro e he
  split_ifs at he with h1 h2 h3
  · exact (List.mem_filter.mp he).1
  · exact (List.mem_filter.mp he).1
  · exact he
  · exact he

theorem h5_growth (fuel : Nat) :
    (∀ p st, ∀ e ∈ (createRequiredGroupsFuel fuel p st).1.nodes,
        e ∈ st.nodes ∨ e.1.length ≤ p.length) ∧
    (∀ p st, ∀ e ∈ (checkNodeFuel fuel p st).1.nodes,
        e ∈ st.nodes ∨ e.1.length ≤ (splitPath p).1.length) ∧
    (∀ p st, ∀ e ∈ (createGroupFuel fuel p st).1.nodes,
        e ∈ st.nodes ∨ e.1.length ≤ p.length) := by
  induction fuel with
  | zero =>
    refine ⟨?_, ?_, ?_⟩ <;>
      · intro p st e he
        left
        simpa [createRequiredGroupsFuel, checkNodeFuel, createGroupFuel] using he
  | succ f ih =>
    obtain ⟨ihR, ihN, ihG⟩ := ih
    have hviaParent : ∀ p st (e : HPath × NodeKind),
        e ∈ (createRequiredGroupsFuel f (splitPath p).1 st).1.nodes →
        e ∈ st.nodes ∨ e.1.length ≤ (splitPath p).1.length := by
      intro p st e he
      exact ihR (splitPath p).1 st e he
    refine ⟨?_, ?_, ?_⟩
    · intro p st e he
      by_cases hh : st.hasNode p
      · rw [show createRequiredGroupsFuel (f + 1) p st = (st, .ok ()) by
          simp [createRequiredGroupsFuel, hh]] at he
        exact Or.inl he
      · rw [Bool.not_eq_true] at hh
        rw [show createRequiredGroupsFuel (f + 1) p st =
            andThen (createRequiredGroupsFuel f (splitPath p).1 st)
              (fun st2 => createGroupFuel f p st2) by
          simp [createRequiredGroupsFuel, hh]] at he
        rcases andThen_fst_cases (createRequiredGroupsFuel f (splitPath p).1 st)
            (fun st2 => createGroupFuel f p st2) with hc | hc
        · rw [hc] at he
          rcases hviaParent p st e he with h | h
          · exact Or.inl h
          · exact Or.inr (le_trans h (splitPath_fst_length_le p))
        · rw [hc] at he
          rcases ihG p _ e he with h | h
          · rcases hviaParent p st e h with h' | h'
            · exact Or.inl h'
            · exact Or.inr (le_trans h' (splitPath_fst_length_le p))
          · exact Or.inr h
    · intro p st e he
      have hdef : checkNodeFuel (f + 1) p st =
          andThen
            (if st.autoGroups then createRequiredGroupsFuel f (splitPath p).1 st
             else (st, .ok ()))
            (fun st1 =>
              if st1.hasNode p then
                if st1.deleteExisting then
                  if st1.kindOf p == some .group then (st1.removeGroup p, .ok ())
                  else (st1.removeNode p, .ok ())
                else (st1, .error .valueError)
              else (st1, .ok ())) := rfl
      rw [hdef] at he
      have hfirst : ∀ (e : HPath × NodeKind),
          e ∈ ((if st.autoGroups then createRequiredGroupsFuel f (splitPath p).1 st
              else (st, .ok ())) :
            H5State × Except H5Error Unit).1.nodes →
          e ∈ st.nodes ∨ e.1.length ≤ (splitPath p).1.length := by
        intro e' he'
        by_cases hag : st.autoGroups
        · rw [if_pos hag] at he'
          exact hviaParent p st e' he'
        · rw [if_neg hag] at he'
          exact Or.inl he'
      rcases andThen_fst_cases
          (if st.autoGroups then createRequiredGroupsFuel f (splitPath p).1 st
           else (st, .ok ())) _ with hc | hc
      · rw [hc] at he
        exact hfirst e he
      · rw [hc] at he
        exact hfirst e (checkNode_stage2_subset p _ e he)
    · intro p st e he
      have hdef : createGroupFuel (f + 1) p st =
          andThen (checkNodeFuel f p st)
            (fun st1 => andThen (assertValidPath p st1)
              (fun st2 => (st2.addNode p .group, .ok ()))) := rfl
      rw [hdef] at he
      have hfromCheck : ∀ (e : HPath × NodeKind),
          e ∈ (checkNodeFuel f p st).1.nodes →
          e ∈ st.nodes ∨ e.1.length ≤ p.length := by
        intro e' he'
        rcases ihN p st e' he' with h | h
        · exact Or.inl h
        · exact Or.inr (le_trans h (splitPath_fst_length_le p))
      rcases andThen_fst_cases (checkNodeFuel f p st) _ with hc | hc
      · rw [hc] at he
        exact hfromCheck e he
      · rw [hc] at he
        by_cases ha : attrsWord ∈ splitOnSlash p
        · rw [show (andThen (assertValidPath p (checkNodeFuel f p st).1)
              (fun st2 => (st2.addNode p .group, .ok ()))).1 =
                (checkNodeFuel f p st).1 by
            simp [assertValidPath, ha, andThen]] at he
          exact hfromCheck e he
        · rw [show (andThen (assertValidPath p (checkNodeFuel f p st).1)
              (fun st2 => (st2.addNode p .group, .ok ()))).1 =
                ((checkNodeFuel f p st).1.addNode p .group) by
            simp [assertValidPath, ha, andThen]] at he
          simp only [H5State.addNode, List.mem_append, List.mem_singleton] at he
          rcases he with he | he
          · exact hfromCheck e he
          · right
            rw [he]

theorem checkNode_preserves_absent (F : Nat) (p : HPath) (st : H5State)
    (h5 : 5 ≤ p.length) (hno : st.hasNode p = false) :
    (checkNodeFuel F p st).1.hasNode p = false := by
  have hmain := (h5_growth F).2.1 p st
  have hlt := splitPath_fst_length_lt p h5
  simp only [H5State.hasNode, Bool.eq_false_iff, ne_eq]
  rw [List.any_eq_true]
  rintro ⟨e, he, hbeq⟩
  have hep : e.1 = p := by simpa using hbeq
  rcases hmain e he with h | h
  · have hyes : st.hasNode p = true := by
      rw [H5State.hasNode, List.any_eq_true]
      exact ⟨e, h, by simp [hep]⟩
    rw [hyes] at hno
    exact absurd hno (by simp)
  · rw [hep] at h
    omega

theorem checkNode_then_assert_invalid (fuel : Nat) (p : HPath) (st : H5State)
    (rest : H5State → H5State × Except H5Error Unit)
    (hattrs : attrsWord ∈ splitOnSlash p) :
    (andThen (checkNodeFuel fuel p st)
        (fun st2 => andThen (assertValidPath p st2) rest)).1 =
      (checkNodeFuel fuel p st).1 ∧
    ∃ e, (andThen (checkNodeFuel fuel p st)
        (fun st2 => andThen (assertValidPath p st2) rest)).2 = .error e := by
  have hassert : ∀ st2, assertValidPath p st2 = (st2, .error .valueError) := by
    intro st2
    simp [assertValidPath, hattrs]
  rcases hcn : checkNodeFuel fuel p st with ⟨st1, out⟩
  cases out with
  | ok u =>
    cases u
    refine ⟨?_, .valueError, ?_⟩ <;> simp [andThen, hassert]
  | error e =>
    refine ⟨rfl, e, rfl⟩

/-! ### Claim C10 -/

/-- C10: `_assert_valid_path` raises `ValueError` exactly when `attrs`
occurs among the '/'-separated components of the node path, and
`create_array`, `create_group`, `create_dict` and `create_table` all
apply this check before creating the requested node: on an invalid path
each of them fails and the requested node is not created (assuming it
was not already present). -/
theorem assert_valid_path_guards_creation (p : HPath) (st : H5State)
    (shapeOnly dtypeGiven : Bool) :
    ((assertValidPath p st).2 = .error .valueError ↔
        attrsWord ∈ splitOnSlash p) ∧
    (attrsWord ∈ splitOnSlash p → st.hasNode p = false →
      ((∃ e, (createArray p shapeOnly dtypeGiven st).2 = .error e) ∧
          (createArray p shapeOnly dtypeGiven st).1.hasNode p = false) ∧
        ((∃ e, (createGroup p st).2 = .error e) ∧
          (createGroup p st).1.hasNode p = false) ∧
        ((∃ e, (createDict p st).2 = .error e) ∧
          (createDict p st).1.hasNode p = false) ∧
        ((∃ e, (createTable p st).2 = .error e) ∧
          (createTable p st).1.hasNode p = false)) := by
  constructor
  · by_cases ha : attrsWord ∈ splitOnSlash p
    · simp [assertValidPath, ha]
    · simp [assertValidPath, ha]
  · intro hattrs hno
    have h5 : 5 ≤ p.length :=
      le_trans (le_refl 5) (splitOnSlash_length p attrsWord hattrs)
    have habsent : ∀ F, (checkNodeFuel F p st).1.hasNode p = false :=
      fun F => checkNode_preserves_absent F p st h5 hno
    obtain ⟨fg, hfg⟩ : ∃ fg, defaultFuel p = fg + 1 :=
      ⟨defaultFuel p - 1, by unfold defaultFuel; omega⟩
    have hgroup : createGroup p st =
        andThen (checkNodeFuel fg p st)
          (fun st2 => andThen (assertValidPath p st2)
            (fun st3 => (st3.addNode p .group, .ok ()))) := by
      rw [createGroup, hfg]
      rfl
    refine ⟨?_, ?_, ?_, ?_⟩
    · obtain ⟨hst, he⟩ := checkNode_then_assert_invalid (defaultFuel p) p st
        (fun st3 => andThen
          (if shapeOnly && !dtypeGiven then (st3, .error .valueError)
           else (st3, .ok ()))
          (fun st4 => (st4.addNode p .leaf, .ok ()))) hattrs
      exact ⟨he, by rw [show (createArray p shapeOnly dtypeGiven st).1 =
          (checkNodeFuel (defaultFuel p) p st).1 from hst]; exact habsent _⟩
    · obtain ⟨hst, he⟩ := checkNode_then_assert_invalid fg p st
        (fun st3 => (st3.addNode p .group, .ok ())) hattrs
      rw [hgroup]
      exact ⟨he, by rw [show (andThen (checkNodeFuel fg p st)
          (fun st2 => andThen (assertValidPath p st2)
            (fun st3 => (st3.addNode p .group, .ok ())))).1 =
          (checkNodeFuel fg p st).1 from hst]; exact habsent _⟩
    · obtain ⟨hst, he⟩ := checkNode_then_assert_invalid (defaultFuel p) p st
        (fun st3 => (st3.addNode p .leaf, .ok ())) hattrs
      exact ⟨he, by rw [show (createDict p st).1 =
          (checkNodeFuel (defaultFuel p) p st).1 from hst]; exact habsent _⟩
    · obtain ⟨hst, he⟩ := checkNode_then_assert_invalid (defaultFuel p) p st
        (fun st3 => (st3.addNode p .leaf, .ok ())) hattrs
      exact ⟨he, by rw [show (createTable p st).1 =
          (checkNodeFuel (defaultFuel p) p st).1 from hst]; exact habsent _⟩

/-- Witness for C10 on the concrete path `/a/attrs` against a file
holding only the root group: the validity check fails and the node is
not created. -/
theorem assert_valid_path_guards_creation_witness :
    (assertValidPath ['/', 'a', '/', 'a', 't', 't', 'r', 's']
        ⟨[(['/'], .group)], true, false⟩).2 = .error .valueError ∧
      (createDict ['/', 'a', '/', 'a', 't', 't', 'r', 's']
        ⟨[(['/'], .group)], true, false⟩).1.hasNode
        ['/', 'a', '/', 'a', 't', 't', 'r', 's'] = false :=
  ⟨(assert_valid_path_guards_creation ['/', 'a', '/', 'a', 't', 't', 'r', 's']
        ⟨[(['/'], .group)], true, false⟩ false false).1.mpr (by decide),
    ((assert_valid_path_guards_creation ['/', 'a', '/', 'a', 't', 't', 'r', 's']
        ⟨[(['/'], .group)], true, false⟩ false false).2 (by decide)
      (by decide)).2.2.1.2⟩

end AppTools
